import Mathlib

/-!
Verification development for the `pdf-bulk-filler` core: a shallow
embedding, in Lean 4, of the rule-evaluation engine
(`src/pdf_bulk_filler/mapping/rules.py`), the mapping model
(`src/pdf_bulk_filler/mapping/manager.py`), the PDF fill / flatten engine
(`src/pdf_bulk_filler/pdf/engine.py`) and the combining / cancellation
logic of the background worker (`src/pdf_bulk_filler/ui/workers.py`),
together with theorems settling the specification's claims about them.

Python scalars (the values of a row, of rule options and of choice-case
payloads) are embedded as the inductive `Val`; Python `dict`s appearing
as values are embedded as ordered association lists.  Machine-level
concerns (hashing, object identity) do not affect any of the embedded
functions, which are all pure data transformations in the source.
-/

namespace PdfBulkFiller

/-- A Python scalar value as it can appear in a data row, a rule option
or a choice-case payload: `none'` is Python `None`, `nan` a pandas
missing value (`NaN`/`NaT`), and `dict` an ordered Python dictionary
with string keys (used by choice-case action payloads). -/
inductive Val where
  | none'
  | nan
  | str (s : String)
  | int (n : Int)
  | bool (b : Bool)
  | date (y m d : Nat)
  | datetime (y mo d h mi s : Nat)
  | dict (entries : List (String × Val))

/-- A data row: mapping from column name to scalar value
(`RowRecord` of the spec). -/
abbrev Row := List (String × Val)

/-- `row.get(key)` — first binding wins, as in a Python dict. -/
def rowGet (row : Row) (k : String) : Option Val :=
  (row.find? (fun kv => kv.1 = k)).map (·.2)

/-- Left-pad the decimal form of `n` with zeros to width `w`
(Python `"%02d"`-style formatting used by `strftime`). -/
def padNat (w : Nat) (n : Nat) : String :=
  let s := toString n
  String.mk (List.replicate (w - s.length) '0') ++ s

/-- `strftime("%Y-%m-%d")`. -/
def fmtDate (y m d : Nat) : String :=
  padNat 4 y ++ "-" ++ padNat 2 m ++ "-" ++ padNat 2 d

/-- `strftime("%Y-%m-%d %H:%M:%S")`. -/
def fmtDateTime (y mo d h mi s : Nat) : String :=
  fmtDate y mo d ++ " " ++ padNat 2 h ++ ":" ++ padNat 2 mi ++ ":" ++ padNat 2 s

mutual

/-- Python `repr` of a scalar, as used when a `dict` is converted by
`str()`: strings get single quotes, nested dicts recurse. -/
def reprVal : Val → String
  | .none' => "None"
  | .nan => "nan"
  | .str s => "'" ++ s ++ "'"
  | .int n => toString n
  | .bool b => if b then "True" else "False"
  | .date y m d => "datetime.date(" ++ toString y ++ ", " ++ toString m ++ ", " ++ toString d ++ ")"
  | .datetime y mo d h mi s =>
      "datetime.datetime(" ++ toString y ++ ", " ++ toString mo ++ ", " ++ toString d ++ ", "
        ++ toString h ++ ", " ++ toString mi ++ ", " ++ toString s ++ ")"
  | .dict es => "\x7b" ++ reprEntries es ++ "\x7d"

/-- Python `repr` of the entries of a dict, comma-separated. -/
def reprEntries : List (String × Val) → String
  | [] => ""
  | [(k, v)] => "'" ++ k ++ "': " ++ reprVal v
  | (k, v) :: rest => "'" ++ k ++ "': " ++ reprVal v ++ ", " ++ reprEntries rest

end

/-- Python `str()` of a scalar (`str(value)` in the source). -/
def pyStr : Val → String
  | .none' => "None"
  | .nan => "nan"
  | .str s => s
  | .int n => toString n
  | .bool b => if b then "True" else "False"
  | .date y m d => fmtDate y m d
  | .datetime y mo d h mi s => fmtDateTime y mo d h mi s
  | .dict es => "\x7b" ++ reprEntries es ++ "\x7d"

mutual

/-- Python `==` between embedded scalars: `True == 1`, `NaN` is not
equal to anything (including itself), dicts compare entrywise. -/
def pyEq : Val → Val → Bool
  | .none', .none' => true
  | .str a, .str b => a = b
  | .int a, .int b => a = b
  | .bool a, .bool b => a = b
  | .bool a, .int b => (if a then (1 : Int) else 0) = b
  | .int a, .bool b => a = (if b then (1 : Int) else 0)
  | .date y m d, .date y' m' d' => y = y' && m = m' && d = d'
  | .datetime y mo d h mi s, .datetime y' mo' d' h' mi' s' =>
      y = y' && mo = mo' && d = d' && h = h' && mi = mi' && s = s'
  | .dict a, .dict b => pyEqEntries a b
  | _, _ => false

/-- Entrywise dict comparison (insertion order respected). -/
def pyEqEntries : List (String × Val) → List (String × Val) → Bool
  | [], [] => true
  | (k, v) :: a, (k', v') :: b => k = k' && pyEq v v' && pyEqEntries a b
  | _, _ => false

end

/-- Python truthiness of an embedded scalar (`if value:`). -/
def pyTruthy : Val → Bool
  | .none' => false
  | .nan => true
  | .str s => s ≠ ""
  | .int n => n ≠ 0
  | .bool b => b
  | .date _ _ _ => true
  | .datetime _ _ _ _ _ _ => true
  | .dict es => !es.isEmpty

/-- The text produced by `RuleEvaluator._stringify` when the value is
not null/missing; `none` means the configured default is returned
instead.  A `datetime` with zero time-of-day prints as a date
(`rules.py` lines 148-153). -/
def stringifyCore : Val → Option String
  | .none' => Option.none
  | .nan => Option.none
  | .str s => some s
  | .datetime y mo d h mi s =>
      if h = 0 ∧ mi = 0 ∧ s = 0 then some (fmtDate y mo d)
      else some (fmtDateTime y mo d h mi s)
  | .date y m d => some (fmtDate y m d)
  | v => some (pyStr v)

/-- `RuleEvaluator._stringify(value, default=default)`: the default
object is returned unchanged for null/missing input. -/
def stringify (v default : Val) : Val :=
  match stringifyCore v with
  | some s => .str s
  | Option.none => default

/-- The four supported mapping strategies (`RuleType`). -/
inductive RuleType where
  | value | literal | choice | concat
  deriving DecidableEq

/-- The serialized name of a rule type (`RuleType(...).value`). -/
def ruleTypeStr : RuleType → String
  | .value => "value"
  | .literal => "literal"
  | .choice => "choice"
  | .concat => "concat"

/-- `RuleType(s)`: parse a serialized rule type, `none` when the
string names no member (Python raises `ValueError`). -/
def parseRuleType (s : String) : Option RuleType :=
  if s = "value" then some .value
  else if s = "literal" then some .literal
  else if s = "choice" then some .choice
  else if s = "concat" then some .concat
  else Option.none

/-- The `rule_type` attribute: normally a coerced enum member, but the
attribute is mutable in Python and `evaluate` re-checks strings
defensively, so a raw string is also representable. -/
inductive RuleTypeField where
  | known (t : RuleType)
  | raw (s : String)
  deriving DecidableEq

/-- The `cases` option of a Choice rule: either a match→outputs map or
the UI's list form, whose items are `{match: m, outputs: o}` dicts.
A row scalar never compares equal (`raw_value in cases`) to such a
dict item, so the list form always falls through to the default. -/
inductive CasesOpt where
  | map (entries : List (Val × Val))
  | arr (items : List (Val × Option Val))

/-- Typed view of the `options` dict of a rule; absent keys are
`none`/`[]`.  A non-string `format` entry is skipped by the source
(`isinstance(template, str)`), so `format` is typed as a string. -/
structure Options where
  column : Option String := Option.none
  defaultOpt : Option Val := Option.none
  formatTmpl : Option String := Option.none
  valueOpt : Option Val := Option.none
  source : Option String := Option.none
  cases : CasesOpt := .map []
  caseMap : Option (List (String × Val)) := Option.none
  columns : List String := []
  separator : Option String := Option.none
  skipEmpty : Option Bool := Option.none
  prefixStr : Option String := Option.none
  suffixStr : Option String := Option.none

/-- `MappingRule`: name, kind, target list and options. -/
structure MappingRule where
  name : String
  ruleType : RuleTypeField
  targets : List String
  options : Options

/-- `_ensure_targets`: drop falsy entries, fall back to `[rule_name]`. -/
def ensureTargets (ruleName : String) (targets : List String) : List String :=
  let resolved := targets.filter (fun t => t ≠ "")
  if resolved ≠ [] then resolved else [ruleName]

/-- `MappingRule(...)` with `__post_init__` applied: the public
constructor used throughout the source (rule type already coerced). -/
def mkRule (name : String) (t : RuleType) (targets : List String) (opts : Options) : MappingRule :=
  { name := name, ruleType := .known t, targets := ensureTargets name targets, options := opts }

/-- The semantics of `str.format` applied to a rule's `format` template
with the looked-up cell (`value=...`) and the row as context; `none`
models the template raising, which the evaluator catches. -/
abbrev FmtFn := String → Val → Row → Option String

/-- `RuleEvaluator._evaluate_value` (`rules.py` lines 178-200). -/
def evaluateValue (fmt : FmtFn) (rule : MappingRule) (row : Row) : List (String × Val) :=
  let opts := rule.options
  let defaultV := opts.defaultOpt.getD (.str "")
  match opts.column with
  | Option.none => rule.targets.map (fun t => (t, defaultV))
  | some col =>
    if col = "" then rule.targets.map (fun t => (t, defaultV))
    else
      let raw := (rowGet row col).getD defaultV
      let viaText := rule.targets.map (fun t => (t, stringify raw defaultV))
      match opts.formatTmpl with
      | Option.none => viaText
      | some tmpl =>
        if tmpl = "" then viaText
        else
          match fmt tmpl raw row with
          | some formatted => rule.targets.map (fun t => (t, .str formatted))
          | Option.none => viaText

/-- `RuleEvaluator._evaluate_literal` (`rules.py` lines 202-204). -/
def evaluateLiteral (rule : MappingRule) : List (String × Val) :=
  let v := stringify (rule.options.valueOpt.getD (.str "")) (.str "")
  rule.targets.map (fun t => (t, v))

/-- `RuleEvaluator._normalize_choice_output` (`rules.py` lines
222-229): a mapping payload is stringified per target entry — action
objects included, which therefore come out as their `str()` repr — and
a flat payload is stringified once for every target. -/
def normalizeChoiceOutput (rule : MappingRule) (selected : Val) : List (String × Val) :=
  match selected with
  | .dict es => es.map (fun kv => (kv.1, stringify kv.2 (.str "")))
  | v =>
      let t := stringify v (.str "")
      rule.targets.map (fun tg => (tg, t))

/-- `RuleEvaluator._evaluate_choice` (`rules.py` lines 206-220):
select the case matching the raw value, else the stringified raw
value, else the default. -/
def evaluateChoice (rule : MappingRule) (row : Row) : List (String × Val) :=
  let opts := rule.options
  let raw : Val :=
    match opts.source with
    | some s => if s = "" then .none' else (rowGet row s).getD .none'
    | Option.none => .none'
  let defaultV := opts.defaultOpt.getD (.dict [])
  let selected : Val :=
    match opts.cases with
    | .map es =>
      match es.find? (fun kv => pyEq raw kv.1) with
      | some kv => kv.2
      | Option.none =>
        match es.find? (fun kv => pyEq (.str (pyStr raw)) kv.1) with
        | some kv => kv.2
        | Option.none => defaultV
    | .arr _ => defaultV
  normalizeChoiceOutput rule selected

/-- `RuleEvaluator._evaluate_concat` (`rules.py` lines 231-254). -/
def evaluateConcat (rule : MappingRule) (row : Row) : List (String × Val) :=
  let opts := rule.options
  let sep := opts.separator.getD ", "
  let skipEmpty := opts.skipEmpty.getD true
  let defaultV := opts.defaultOpt.getD (.str "")
  let parts := opts.columns.filterMap (fun c =>
    let text := (stringifyCore ((rowGet row c).getD .none')).getD ""
    if skipEmpty ∧ text = "" then Option.none else some text)
  let combined : Val := if parts ≠ [] then .str (String.intercalate sep parts) else defaultV
  let withPre : Val :=
    match opts.prefixStr.getD "" with
    | "" => combined
    | p => .str (p ++ pyStr combined)
  let withSuf : Val :=
    match opts.suffixStr.getD "" with
    | "" => withPre
    | s => .str (pyStr withPre ++ s)
  rule.targets.map (fun t => (t, withSuf))

/-- Dispatch over the four valid kinds (`evaluate`'s body). -/
def evalKind (fmt : FmtFn) (t : RuleType) (rule : MappingRule) (row : Row) : List (String × Val) :=
  match t with
  | .value => evaluateValue fmt rule row
  | .literal => evaluateLiteral rule
  | .choice => evaluateChoice rule row
  | .concat => evaluateConcat rule row

/-- `RuleEvaluator.evaluate` (`rules.py` lines 110-126): re-coerce a
raw string rule type, raising (`.error`) when it names no member. -/
def evaluate (fmt : FmtFn) (rule : MappingRule) (row : Row) : Except String (List (String × Val)) :=
  match rule.ruleType with
  | .raw s =>
    match parseRuleType s with
    | some t => .ok (evalKind fmt t rule row)
    | Option.none => .error ("Unsupported rule type: " ++ s)
  | .known t => .ok (evalKind fmt t rule row)

/-- The JSON payload written by `MappingRule.to_json`: name, type
string, target list and the options dict. -/
structure RulePayload where
  name : String
  typeStr : String
  targets : List String
  options : Options

/-- `MappingRule.to_json` (`rules.py` lines 68-75); `type_enum()`
raises when a mutated raw rule type names no member. -/
def toJson (rule : MappingRule) : Except String RulePayload :=
  match rule.ruleType with
  | .known t => .ok ⟨rule.name, ruleTypeStr t, rule.targets, rule.options⟩
  | .raw s =>
    match parseRuleType s with
    | some t => .ok ⟨rule.name, ruleTypeStr t, rule.targets, rule.options⟩
    | Option.none => .error ("Unknown rule type '" ++ s ++ "'")

/-- `MappingRule.from_json` (`rules.py` lines 57-66): parse the type,
reject an empty name, rebuild through the constructor. -/
def fromJson (p : RulePayload) : Except String MappingRule :=
  match parseRuleType p.typeStr with
  | Option.none => .error ("Unknown rule type '" ++ p.typeStr ++ "'")
  | some t =>
    if p.name = "" then .error "Mapping rule is missing a name."
    else .ok (mkRule p.name t p.targets p.options)

/-! ## Checkbox state resolution (`engine.py`, `_resolve_checkbox_state`) -/

/-- Python `str.strip()` (whitespace at both ends). -/
def pyStrip (s : String) : String :=
  String.mk (((s.data.dropWhile Char.isWhitespace).reverse.dropWhile Char.isWhitespace).reverse)

/-- Lower-case an ASCII letter (the state names and intents the source
compares are ASCII). -/
def lowerChar (c : Char) : Char :=
  if 'A' ≤ c ∧ c ≤ 'Z' then Char.ofNat (c.toNat + 32) else c

/-- Python `str.lower()`. -/
def lowerStr (s : String) : String :=
  String.mk (s.data.map lowerChar)

/-- Python `s[1:]`. -/
def dropFirst (s : String) : String :=
  String.mk (s.data.drop 1)

/-- Python `s.startswith(p)`. -/
def startsWithStr (s p : String) : Bool :=
  p.data.isPrefixOf s.data

/-- Python `len(s)`. -/
def strLen (s : String) : Nat :=
  s.data.length

/-- Lower-cased name of a state without its leading marker
(`state[1:].lower()`). -/
def stateTailLower (s : String) : String :=
  lowerStr (dropFirst s)

/-- `_match_state`: first state matching the target exactly or
case-insensitively ignoring the leading `/` — a single combined scan
(`engine.py` lines 256-260). -/
def matchState (states : List String) (target : String) : Option String :=
  states.find? (fun s => s = target || stateTailLower s = stateTailLower target)

/-- `_first_on_state`: first state other than exactly `/Off`
(`engine.py` lines 262-266). -/
def firstOnState (states : List String) : Option String :=
  states.find? (fun s => s ≠ "/Off")

/-- `_first_off_state`: first state equal to `/Off` or whose tail is
case-insensitively off-like (`engine.py` lines 268-273). -/
def firstOffState (states : List String) : Option String :=
  states.find? (fun s =>
    s = "/Off" ||
      (decide (strLen s > 1) &&
        (stateTailLower s ∈ ["off", "no", "false", "unchecked", "0"] : Bool)))

/-- The truthy checkbox intents of the source. -/
def truthyIntents : List String := ["yes", "true", "on", "1", "checked"]

/-- The falsy checkbox intents of the source. -/
def falsyIntents : List String := ["no", "false", "off", "0", "unchecked"]

/-- `_resolve_checkbox_state` on a string payload value (`engine.py`
lines 280-308).  String payloads always resolve to a state name. -/
def resolveCheckboxStr (v : String) (states : List String) : String :=
  let stripped := pyStrip v
  if startsWithStr stripped "/" ∧ strLen stripped > 1 then
    (matchState states stripped).getD stripped
  else
    let lowered := lowerStr stripped
    if lowered ∈ truthyIntents then
      match matchState states "/Yes" with
      | some m => m
      | Option.none => (firstOnState states).getD "/Yes"
    else if lowered ∈ falsyIntents then
      match matchState states "/Off" with
      | some m => m
      | Option.none =>
        match matchState states ("/" ++ stripped) with
        | some m => m
        | Option.none => (firstOffState states).getD "/Off"
    else if stripped ≠ "" then
      (matchState states ("/" ++ stripped)).getD ("/" ++ stripped)
    else "/Off"

/-- `_resolve_checkbox_state` on an arbitrary payload value
(`engine.py` lines 277-322).  The result is `none` exactly in the one
source path that returns Python `None`: a truthy boolean with no
matching state and no on-state (`return _first_on_state() if value`). -/
def resolveCheckbox (v : Val) (states : List String) : Option String :=
  match v with
  | .str s => some (resolveCheckboxStr s states)
  | .bool b =>
    let target := if b then "/Yes" else "/Off"
    match matchState states target with
    | some m => some m
    | Option.none =>
      if b then firstOnState states
      else some ((firstOffState states).getD target)
  | v =>
    if pyTruthy v then
      match matchState states "/Yes" with
      | some m => some m
      | Option.none => some ((firstOnState states).getD "/Yes")
    else some ((matchState states "/Off").getD "/Off")

/-- Modelled from the spec: the §4.2 resolution order exactly as the
spec words it — an exact case-sensitive match first; else a
case-insensitive match ignoring the leading `/` marker; else a truthy
intent takes the first state that is not the off-like state
(synthesizing `/Yes`); a falsy intent takes the canonical off-like
state (synthesizing `/Off`); any other non-empty name synthesizes a
state of that name.  Used only to compare the source resolver against
the claimed order. -/
def resolveSpecOrder (intent : String) (states : List String) : String :=
  let stripMarker := fun (s : String) => if startsWithStr s "/" then dropFirst s else s
  let isOffLike := fun (s : String) =>
    ((stateTailLower s ∈ ["off", "no", "false", "unchecked", "0"] : Bool))
  if intent ∈ states then intent
  else
    match states.find? (fun s => stateTailLower s = lowerStr (stripMarker intent)) with
    | some m => m
    | Option.none =>
      let lowered := lowerStr intent
      if lowered ∈ truthyIntents then
        match states.find? (fun s => !isOffLike s) with
        | some m => m
        | Option.none => "/Yes"
      else if lowered ∈ falsyIntents then
        match states.find? isOffLike with
        | some m => m
        | Option.none => "/Off"
      else "/" ++ stripMarker intent

/-! ## Interactive fill (`engine.py`, `_write_interactive_pdf`) -/

/-- A widget annotation as touched by the interactive writer: its
field name (`/T`), its available appearance states (the keys of
`/AP` `/N`), its value (`/V`), its current appearance state (`/AS`)
and its field-flag bitmask (`/Ff`). -/
structure WAnnot where
  title : Option String
  states : List String
  vVal : Option String
  asVal : Option String
  ff : Nat
  deriving DecidableEq

/-- A page: its annotation array (`/Annots`). -/
structure WPage where
  annots : List WAnnot
  deriving DecidableEq

/-- `_normalize_payload_value` (`engine.py` lines 222-239): classify a
payload value as checkbox (`true`) or text and normalize it. -/
def normalizePayloadValue (v : Val) : Bool × Val :=
  match v with
  | .bool b => (true, .bool b)
  | .none' => (false, .str "")
  | .int n => (false, .str (toString n))
  | .nan => (false, .str "nan")
  | .str s =>
    let stripped := pyStrip s
    if startsWithStr stripped "/" ∧ strLen stripped > 1 then (true, .str stripped)
    else if lowerStr stripped ∈
        ["yes", "no", "on", "off", "true", "false", "1", "0", "checked", "unchecked"] then
      (true, .str stripped)
    else (false, .str stripped)
  | v => (false, .str (pyStr v))

/-- Dict lookup in an association-list payload (first binding wins). -/
def lookupVal (m : List (String × Val)) (k : String) : Option Val :=
  (m.find? (fun kv => kv.1 = k)).map (·.2)

/-- The checkbox part of the payload partition. -/
def checkboxUpdates (payload : List (String × Val)) : List (String × Val) :=
  payload.filterMap (fun kv =>
    let p := normalizePayloadValue kv.2
    if p.1 then some (kv.1, p.2) else Option.none)

/-- The text part of the payload partition. -/
def textUpdates (payload : List (String × Val)) : List (String × Val) :=
  payload.filterMap (fun kv =>
    let p := normalizePayloadValue kv.2
    if p.1 then Option.none else some (kv.1, p.2))

/-- `writer.update_page_form_field_values`: write the value entry of
every annotation whose field name is among the text updates. -/
def applyTextUpd (tu : List (String × Val)) (a : WAnnot) : WAnnot :=
  match a.title with
  | some t =>
    match lookupVal tu t with
    | some (.str s) => { a with vVal := some s }
    | _ => a
  | Option.none => a

/-- The checkbox pass (`engine.py` lines 189-203): resolve the state
and write it into both `/V` and `/AS`. -/
def applyCheckboxUpd (cu : List (String × Val)) (a : WAnnot) : WAnnot :=
  match a.title with
  | some t =>
    match lookupVal cu t with
    | some v =>
      let resolved := resolveCheckbox v a.states
      { a with vVal := resolved, asVal := resolved }
    | Option.none => a
  | Option.none => a

/-- `_write_interactive_pdf` (`engine.py` lines 151-220) restricted to
its effect on the page annotations: text-field values first, then the
checkbox pass, then (if `read_only`) the flag pass setting bit value 1
on every annotation's `/Ff`. -/
def writeInteractive (pages : List WPage) (payload : List (String × Val)) (readOnly : Bool) :
    List WPage :=
  let tu := textUpdates payload
  let cu := checkboxUpdates payload
  pages.map (fun pg =>
    let a1 := pg.annots.map (applyTextUpd tu)
    let a2 := a1.map (applyCheckboxUpd cu)
    let a3 := if readOnly then a2.map (fun a => { a with ff := a.ff ||| 1 }) else a2
    ⟨a3⟩)

/-! ## Flatten (`engine.py`, `_write_flattened_pdf` / `_strip_acroform`) -/

/-- The kind of an annotation on a page: a form widget, a link, or any
other non-form annotation. -/
inductive FKind where
  | widget | link | other
  deriving DecidableEq

/-- An annotation as seen by the flatten pass. -/
structure FAnnot where
  kind : FKind
  title : String
  deriving DecidableEq

/-- A page: annotation array plus the static text burned into its
content stream so far. -/
structure FPage where
  annots : List FAnnot
  drawn : List String
  deriving DecidableEq

/-- A document: whether the root still has an `/AcroForm` entry, and
its pages. -/
structure FDoc where
  hasAcroForm : Bool
  pages : List FPage
  deriving DecidableEq

/-- The burn-in value for one widget (`engine.py` lines 344-364):
state names map to a mark glyph or nothing, truthy/falsy strings to a
mark or nothing, other text to its stripped form. -/
def burnText (payload : List (String × Val)) (fieldName : String) : String :=
  let text := (lookupVal payload fieldName).getD (.str "")
  match text with
  | .str t =>
    if startsWithStr t "/" then
      if lowerStr t ∈ ["/off", "/no"] then "" else "X"
    else
      let lowered := lowerStr (pyStrip t)
      if lowered ∈ truthyIntents then "X"
      else if lowered ∈ falsyIntents then ""
      else pyStrip t
  | .bool b => if b then "X" else ""
  | .none' => ""
  | v => pyStr v

/-- The per-page widget loop (`engine.py` lines 341-373): draw the
non-empty burn value of every widget, then delete the widget
annotation (links and other annotations survive this pass). -/
def flattenPage (payload : List (String × Val)) (pg : FPage) : FPage :=
  let widgets := pg.annots.filter (fun a => a.kind = .widget)
  let texts := widgets.filterMap (fun w =>
    let t := burnText payload w.title
    if t ≠ "" then some t else Option.none)
  ⟨pg.annots.filter (fun a => a.kind ≠ .widget), pg.drawn ++ texts⟩

/-- `_strip_acroform` (`engine.py` lines 388-400): pop the whole
`/Annots` array from every page and the `/AcroForm` entry from the
document root. -/
def stripAcroformDoc (doc : FDoc) : FDoc :=
  ⟨false, doc.pages.map (fun p => ⟨[], p.drawn⟩)⟩

/-- `_write_flattened_pdf` (`engine.py` lines 324-386): burn in and
delete widgets page by page, then run the `_strip_acroform`
post-pass over the saved file. -/
def writeFlattened (doc : FDoc) (payload : List (String × Val)) : FDoc :=
  stripAcroformDoc ⟨doc.hasAcroForm, doc.pages.map (flattenPage payload)⟩

/-! ## Field renaming and combining (`workers.py`, `_rename_form_fields`
and `_generate_combined`) -/

/-- A node of the AcroForm field hierarchy: a partial field name
(`/T`, absent on pure widget kids) and its `/Kids`. -/
inductive FieldNode where
  | node (title : Option String) (kids : List FieldNode)

mutual

/-- `_rename_field` (`workers.py` lines 171-189): append `_suffix` to
the node's name and recurse into `/Kids`. -/
def renameNode (sfx : String) : FieldNode → FieldNode
  | .node t kids => .node (t.map (fun n => n ++ "_" ++ sfx)) (renameKidsList sfx kids)

/-- Rename every tree of a field list. -/
def renameKidsList (sfx : String) : List FieldNode → List FieldNode
  | [] => []
  | k :: ks => renameNode sfx k :: renameKidsList sfx ks

end

mutual

/-- The field names present in a tree, in traversal order. -/
def collectNode : FieldNode → List String
  | .node t kids => (match t with | some n => [n] | Option.none => []) ++ collectKidsList kids

/-- The field names present in a field list. -/
def collectKidsList : List FieldNode → List String
  | [] => []
  | k :: ks => collectNode k ++ collectKidsList ks

end

/-- The character of a decimal digit. -/
def digitChar (n : Nat) : Char := Char.ofNat (48 + n)

/-- Big-endian decimal digits of a natural number (Python `str(n)`
for the suffix ordinal). -/
def decChars (n : Nat) : List Char :=
  if _h : n < 10 then [digitChar n]
  else decChars (n / 10) ++ [digitChar (n % 10)]
  decreasing_by exact Nat.div_lt_self (Nat.lt_of_lt_of_le (by norm_num) (Nat.le_of_not_lt _h)) (by norm_num)

/-- Python `f"{n:04d}"`: the decimal form left-padded with zeros to
width 4. -/
def pad4Chars (n : Nat) : List Char :=
  List.replicate (4 - (decChars n).length) '0' ++ decChars n

/-- The row-unique suffix `f"entry{index:04d}"` of
`_generate_combined` (`workers.py` line 120). -/
def entrySuffix (i : Nat) : String :=
  "entry" ++ String.mk (pad4Chars i)

/-- A template for combining, reduced to the structure the combiner
manipulates: its page list and its AcroForm field trees.  The
interactive fill that produces each per-row scratch document writes
only `/V`, `/AS` and `/Ff`, so the scratch document of every row
carries the template's page list and field names unchanged. -/
structure CombTemplate where
  pages : List Nat
  fields : List FieldNode

/-- `_generate_combined` (`workers.py` lines 98-137): for each 1-based
row ordinal, rename the scratch document's fields with the row's
suffix and append its pages onto the combined document. -/
def combineRows (tmpl : CombTemplate) (n : Nat) : CombTemplate :=
  { pages := (List.range' 1 n).flatMap (fun _ => tmpl.pages),
    fields := (List.range' 1 n).flatMap (fun i => renameKidsList (entrySuffix i) tmpl.fields) }

/-! ## Mapping model (`manager.py`, `MappingModel.assign`) -/

/-- The rule index of a `MappingModel`: a Python dict from field name
to rule, as an insertion-ordered association list. -/
abbrev RuleIndex := List (String × MappingRule)

/-- `self.rules.get(k)`. -/
def idxGet (m : RuleIndex) (k : String) : Option MappingRule :=
  (m.find? (fun kv => kv.1 = k)).map (·.2)

/-- `self.rules[k] = v`: replace in place, else append. -/
def idxSet (m : RuleIndex) (k : String) (v : MappingRule) : RuleIndex :=
  if (m.find? (fun kv => kv.1 = k)).isSome then
    m.map (fun kv => if kv.1 = k then (k, v) else kv)
  else m ++ [(k, v)]

/-- `list(dict.fromkeys(l))`: deduplicate keeping first occurrences. -/
def dedupKeep (l : List String) : List String :=
  l.foldl (fun acc t => if t ∈ acc then acc else acc ++ [t]) []

/-- `MappingModel._ensure_choice_case_map` (`manager.py` lines
96-121): flatten `cases` into a `case_map` when none is present. -/
def ensureChoiceCaseMap (opts : Options) : Options :=
  let existingOk :=
    match opts.caseMap with
    | some m => !m.isEmpty
    | Option.none => false
  if existingOk then opts
  else
    let cm : List (String × Val) :=
      match opts.cases with
      | .map es => es.filterMap (fun kv =>
          match kv.2 with
          | .dict d => some (pyStr kv.1, .dict d)
          | _ => Option.none)
      | .arr items => items.filterMap (fun it =>
          let mv := pyStrip (pyStr it.1)
          if mv = "" then Option.none
          else match it.2 with
            | some (.dict d) => some (mv, .dict d)
            | _ => Option.none)
    if cm.isEmpty then opts else { opts with caseMap := some cm }

/-- Coerce the `rule_type` attribute to an enum member, as the
`MappingRule` constructor does; `none` when Python would raise. -/
def coerceType : RuleTypeField → Option RuleType
  | .known t => some t
  | .raw s => parseRuleType s

/-- The normalized target list `assign` computes: the constructor's
targets, de-duplicated, with the entry-point field inserted at the
front when absent (`manager.py` lines 41-44). -/
def normTargets (fieldName : String) (rule : MappingRule) : List String :=
  let targets1 := dedupKeep ((ensureTargets fieldName rule.targets).filter (fun t => t ≠ ""))
  let targets2 := if fieldName ∈ targets1 then targets1 else fieldName :: targets1
  if targets2 = [] then [fieldName] else targets2

/-- The options stored by `assign`: Choice rules get their `case_map`
flattened first (`manager.py` lines 46-47). -/
def assignOpts (rt : RuleType) (opts : Options) : Options :=
  if rt = .choice then ensureChoiceCaseMap opts else opts

/-- `MappingModel.assign` (`manager.py` lines 26-67): normalize the
incoming rule onto the entry-point field, prune stale targets of the
previous assignment sharing its target set, then store a clone of the
rule under every one of its targets. -/
def assign (rules : RuleIndex) (fieldName : String) (rule : MappingRule) :
    Except String RuleIndex :=
  match coerceType rule.ruleType with
  | Option.none => .error "Unknown rule type"
  | some rt =>
    let previous := idxGet rules fieldName
    let newTargets := normTargets fieldName rule
    let opts := assignOpts rt rule.options
    let prevTargets : List String := match previous with | some p => p.targets | Option.none => []
    let staleSet := prevTargets.filter (fun t => t ∉ newTargets)
    let rules1 := rules.filter (fun kv =>
      ¬(kv.1 ∈ staleSet ∧ kv.1 ≠ fieldName ∧ kv.2.targets.toFinset = prevTargets.toFinset))
    .ok (newTargets.foldl (fun acc t => idxSet acc t (mkRule t rt newTargets opts)) rules1)

/-! ## Worker cancellation (`workers.py`, `run` / `_report_progress`) -/

/-- The terminal events of a generation job. -/
inductive Outcome where
  | completed (outs : List String)
  | failed (msg : String)
  | cancelled
  deriving DecidableEq

/-- The row loop of `PdfEngine.fill_rows` under the worker's progress
callback: after writing the output of the row at 1-based index `i` the
callback runs, and raises (`true`) when cancellation has been
requested by the time of that check (`workers.py` lines 75-78,
`engine.py` lines 104-144). -/
def fillLoop (fill : Row → String) (flag : Nat → Bool) :
    List Row → Nat → List String → List String × Bool
  | [], _, acc => (acc, false)
  | r :: rest, i, acc =>
    let acc' := acc ++ [fill r]
    if flag i then (acc', true) else fillLoop fill flag rest (i + 1) acc'

/-- `PdfGenerationWorker.run` (`workers.py` lines 57-69): a
`KeyboardInterrupt` raised by the progress callback becomes the
`cancelled` outcome, anything that completes becomes `completed`;
the files written so far stay on disk either way. -/
def runWorker (fill : Row → String) (rows : List Row) (flag : Nat → Bool) :
    Outcome × List String :=
  let r := fillLoop fill flag rows 1 []
  if r.2 then (.cancelled, r.1) else (.completed r.1, r.1)

/-! ## Theorems -/

/-- C2: for every row and every Value rule whose options contain
`column` but no `format`, every target of the rule receives the §4.1
stringification of the looked-up cell — null/missing becomes the
configured default (empty string if unset), a date or a zero-time
datetime becomes `YYYY-MM-DD`, any other datetime becomes
`YYYY-MM-DD HH:MM:SS`, a numeric value its decimal string, anything
else its natural string form; the zero-time datetime
`1995-12-12 00:00:00` evaluates to `"1995-12-12"`. -/
theorem C2_value_rule_stringifies :
    (∀ (fmt : FmtFn) (rule : MappingRule) (row : Row) (col : String),
      rule.ruleType = .known .value →
      rule.options.column = some col → col ≠ "" →
      rule.options.formatTmpl = Option.none →
      evaluate fmt rule row =
        .ok (rule.targets.map (fun t =>
          (t, stringify ((rowGet row col).getD (rule.options.defaultOpt.getD (.str "")))
                (rule.options.defaultOpt.getD (.str "")))))) ∧
    (∀ d : Val, stringify .none' d = d) ∧
    (∀ d : Val, stringify .nan d = d) ∧
    (∀ y m dd (d : Val), stringify (.date y m dd) d = .str (fmtDate y m dd)) ∧
    (∀ y mo dd (d : Val), stringify (.datetime y mo dd 0 0 0) d = .str (fmtDate y mo dd)) ∧
    (∀ y mo dd h mi s (d : Val), ¬(h = 0 ∧ mi = 0 ∧ s = 0) →
      stringify (.datetime y mo dd h mi s) d = .str (fmtDateTime y mo dd h mi s)) ∧
    (∀ (n : Int) (d : Val), stringify (.int n) d = .str (toString n)) ∧
    stringify (.datetime 1995 12 12 0 0 0) (.str "") = .str "1995-12-12" := by
  refine ⟨?_, ?_, ?_, ?_, ?_, ?_, ?_, ?_⟩
  · intro fmt rule row col hty hcol hne hfmt
    simp [evaluate, hty, evalKind, evaluateValue, hcol, hne, hfmt]
  · intro d; rfl
  · intro d; rfl
  · intro y m dd d; rfl
  · intro y mo dd d; simp [stringify, stringifyCore]
  · intro y mo dd h mi s d hne; simp [stringify, stringifyCore, hne]
  · intro n d; rfl
  · rfl

/-- Witness for C2: the claim's own example — a Value rule on column
`BirthDate`, no format, a zero-time-datetime cell — produces
`"1995-12-12"` on its target. -/
theorem C2_value_rule_stringifies_witness :
    evaluate (fun _ _ _ => Option.none)
        (mkRule "Birthdate" .value ["Birthdate"] { column := some "BirthDate" })
        [("BirthDate", .datetime 1995 12 12 0 0 0)] =
      .ok [("Birthdate", .str "1995-12-12")] := by
  have h := C2_value_rule_stringifies.1 (fun _ _ _ => Option.none)
    (mkRule "Birthdate" .value ["Birthdate"] { column := some "BirthDate" })
    [("BirthDate", .datetime 1995 12 12 0 0 0)] "BirthDate"
    rfl rfl (by decide) rfl
  rw [h]
  rfl

/-- C6: `RuleEvaluator.evaluate` raises only for structurally invalid
rule definitions — an unknown rule kind is the error — and for every
rule of one of the four valid kinds and every row it never raises; in
particular a Value rule whose format template throws falls back to
plain stringification of the cell, and a Choice rule with no source
still succeeds via its default. -/
theorem C6_evaluate_raises_only_unknown_kind :
    (∀ (fmt : FmtFn) (rule : MappingRule) (row : Row) (t : RuleType),
      rule.ruleType = .known t → ∃ out, evaluate fmt rule row = .ok out) ∧
    (∀ (fmt : FmtFn) (rule : MappingRule) (row : Row) (s : String),
      rule.ruleType = .raw s → parseRuleType s = Option.none →
      evaluate fmt rule row = .error ("Unsupported rule type: " ++ s)) ∧
    (∀ (fmt : FmtFn) (rule : MappingRule) (row : Row) (s : String) (t : RuleType),
      rule.ruleType = .raw s → parseRuleType s = some t →
      ∃ out, evaluate fmt rule row = .ok out) ∧
    (∀ (fmt : FmtFn) (rule : MappingRule) (row : Row) (col tmpl : String),
      rule.ruleType = .known .value →
      rule.options.column = some col → col ≠ "" →
      rule.options.formatTmpl = some tmpl → tmpl ≠ "" →
      fmt tmpl ((rowGet row col).getD (rule.options.defaultOpt.getD (.str ""))) row = Option.none →
      evaluate fmt rule row =
        .ok (rule.targets.map (fun t =>
          (t, stringify ((rowGet row col).getD (rule.options.defaultOpt.getD (.str "")))
                (rule.options.defaultOpt.getD (.str "")))))) ∧
    (∀ (fmt : FmtFn) (rule : MappingRule) (row : Row) (es : List (Val × Val)),
      rule.ruleType = .known .choice →
      rule.options.source = Option.none →
      rule.options.cases = .map es →
      (∀ kv ∈ es, pyEq .none' kv.1 = false) →
      (∀ kv ∈ es, pyEq (.str "None") kv.1 = false) →
      evaluate fmt rule row =
        .ok (normalizeChoiceOutput rule (rule.options.defaultOpt.getD (.dict [])))) := by
  refine ⟨?_, ?_, ?_, ?_, ?_⟩
  · intro fmt rule row t hty
    exact ⟨evalKind fmt t rule row, by simp [evaluate, hty]⟩
  · intro fmt rule row s hty hparse
    simp [evaluate, hty, hparse]
  · intro fmt rule row s t hty hparse
    exact ⟨evalKind fmt t rule row, by simp [evaluate, hty, hparse]⟩
  · intro fmt rule row col tmpl hty hcol hne htmpl htne hfail
    simp [evaluate, hty, evalKind, evaluateValue, hcol, hne, htmpl, htne, hfail]
  · intro fmt rule row es hty hsrc hcases hk1 hk2
    have h1 : es.find? (fun kv => pyEq .none' kv.1) = Option.none := by
      rw [List.find?_eq_none]; intro kv hm; simp [hk1 kv hm]
    have h2 : es.find? (fun kv => pyEq (.str (pyStr .none')) kv.1) = Option.none := by
      rw [List.find?_eq_none]; intro kv hm; simp [pyStr, hk2 kv hm]
    simp [evaluate, hty, evalKind, evaluateChoice, hsrc, hcases, h1, h2]

/-- Witness for C6: an unknown rule kind produces exactly the
unsupported-type error, and a Value rule whose format template always
throws still succeeds by stringifying the cell. -/
theorem C6_evaluate_raises_only_unknown_kind_witness :
    evaluate (fun _ _ _ => Option.none)
        { name := "X", ruleType := .raw "bogus", targets := ["X"], options := {} }
        [] =
      .error "Unsupported rule type: bogus" ∧
    evaluate (fun _ _ _ => Option.none)
        (mkRule "F" .value ["F"] { column := some "C", formatTmpl := some "{value}" })
        [("C", .int 7)] =
      .ok [("F", .str "7")] := by
  constructor
  · exact C6_evaluate_raises_only_unknown_kind.2.1 (fun _ _ _ => Option.none)
      { name := "X", ruleType := .raw "bogus", targets := ["X"], options := {} }
      [] "bogus" rfl rfl
  · have h := C6_evaluate_raises_only_unknown_kind.2.2.2.1 (fun _ _ _ => Option.none)
      (mkRule "F" .value ["F"] { column := some "C", formatTmpl := some "{value}" })
      [("C", .int 7)] "C" "{value}"
      rfl rfl (by decide) rfl (by decide) rfl
    rw [h]
    rfl

/-- `_ensure_targets` in closed form. -/
theorem ensureTargets_eq (name : String) (ts : List String) :
    ensureTargets name ts =
      if ts.filter (fun t => t ≠ "") = [] then [name] else ts.filter (fun t => t ≠ "") := by
  simp only [ensureTargets]
  split_ifs with h1 h2 <;> simp_all
  obtain ⟨x, hx, hne⟩ := h2
  exact absurd (h1 x hx) hne

/-- Filtering out falsy targets is idempotent. -/
theorem filter_ne_idem (ts : List String) :
    (ts.filter (fun t => t ≠ "")).filter (fun t => t ≠ "") = ts.filter (fun t => t ≠ "") := by
  rw [List.filter_filter]
  simp only [Bool.and_self]

/-- Re-running `_ensure_targets` on its own output changes nothing. -/
theorem ensureTargets_idem (name : String) (ts : List String) :
    ensureTargets name (ensureTargets name ts) = ensureTargets name ts := by
  by_cases h : ts.filter (fun t => t ≠ "") = []
  · rw [ensureTargets_eq name ts, if_pos h, ensureTargets_eq]
    by_cases hn : name = ""
    · subst hn
      norm_num
    · have hf : [name].filter (fun t => t ≠ "") = [name] := by simp [hn]
      rw [hf, if_neg (by simp [hn])]
  · rw [ensureTargets_eq name ts, if_neg h, ensureTargets_eq, filter_ne_idem, if_neg h]

/-- Serialized rule-type names parse back to the same member. -/
theorem parse_ruleTypeStr (t : RuleType) : parseRuleType (ruleTypeStr t) = some t := by
  cases t <;> rfl

/-- C7 (amended): for every constructor-built `MappingRule` with a
non-empty name and every row, deserializing its serialized form
succeeds and yields a rule whose evaluation is exactly that of the
original rule. -/
theorem C7_serialize_roundtrip_amended :
    ∀ (name : String) (t : RuleType) (targets : List String) (opts : Options)
      (fmt : FmtFn) (row : Row),
      name ≠ "" →
      toJson (mkRule name t targets opts) =
        .ok { name := name, typeStr := ruleTypeStr t,
              targets := ensureTargets name targets, options := opts } ∧
      fromJson { name := name, typeStr := ruleTypeStr t,
                 targets := ensureTargets name targets, options := opts } =
        .ok (mkRule name t targets opts) ∧
      (∀ r', fromJson { name := name, typeStr := ruleTypeStr t,
                        targets := ensureTargets name targets, options := opts } = .ok r' →
        evaluate fmt r' row = evaluate fmt (mkRule name t targets opts) row) := by
  intro name t targets opts fmt row hname
  have hfrom : fromJson { name := name, typeStr := ruleTypeStr t,
                          targets := ensureTargets name targets, options := opts } =
      .ok (mkRule name t targets opts) := by
    simp [fromJson, parse_ruleTypeStr, hname, mkRule, ensureTargets_idem]
  refine ⟨?_, hfrom, ?_⟩
  · simp [toJson, mkRule]
  · intro r' hr'
    rw [hfrom] at hr'
    cases hr'
    rfl

/-- Witness for C7 (amended): a concrete Choice rule round-trips and
re-evaluates identically. -/
theorem C7_serialize_roundtrip_amended_witness :
    fromJson { name := "GenderRule", typeStr := "choice",
               targets := ["Male", "Female"],
               options := ({ source := some "Gender" } : Options) } =
      .ok (mkRule "GenderRule" .choice ["Male", "Female"] { source := some "Gender" }) := by
  have h := C7_serialize_roundtrip_amended "GenderRule" .choice ["Male", "Female"]
    { source := some "Gender" } (fun _ _ _ => Option.none) [] (by decide)
  exact h.2.1

/-- C7 counterexample: a `MappingRule` whose name is the empty string
is constructible, serializes, and then fails to deserialize — so
round-tripping it has no evaluation at all, contradicting the claim
as stated for every `MappingRule`. -/
theorem C7_serialize_roundtrip_counterexample :
    toJson (mkRule "" .value [] {}) =
      .ok { name := "", typeStr := "value", targets := [""], options := {} } ∧
    fromJson { name := "", typeStr := "value", targets := [""], options := ({} : Options) } =
      .error "Mapping rule is missing a name." :=
  ⟨rfl, rfl⟩

/-- C5: the repo's own test
`test_rule_evaluator_choice_supports_column_actions` expects the
checkbox action to yield `True` and the column action to yield the
looked-up cell `"Separated"`; the evaluator instead stringifies the
action dicts into their Python repr, so the code contradicts its test
(and the claim).  Targets missing from the action map do receive no
entry, as claimed — the output has exactly the map's two keys. -/
theorem C5_choice_action_objects_stringified :
    evaluate (fun _ _ _ => Option.none)
        (mkRule "Status" .choice ["Single", "Married", "Other", "OtherText"]
          { source := some "Status",
            cases := .map
              [(.str "Other", .dict
                  [("Other", .dict [("mode", .str "checkbox"), ("checked", .bool true)]),
                   ("OtherText", .dict [("mode", .str "column"), ("column", .str "Other Description")])]),
               (.str "Single", .dict
                  [("Single", .dict [("mode", .str "checkbox"), ("checked", .bool true)]),
                   ("Married", .dict [("mode", .str "checkbox"), ("checked", .bool false)])])] })
        [("Status", .str "Other"), ("Other Description", .str "Separated")] =
      .ok [("Other", .str "\x7b'mode': 'checkbox', 'checked': True\x7d"),
           ("OtherText", .str "\x7b'mode': 'column', 'column': 'Other Description'\x7d")] ∧
    "\x7b'mode': 'column', 'column': 'Other Description'\x7d" ≠ "Separated" ∧
    "\x7b'mode': 'checkbox', 'checked': True\x7d" ≠ "True" :=
  ⟨rfl, by decide, by decide⟩

/-- C1 counterexample: for the truthy intent `"yes"` over the ordered
states `["/no", "/Checked"]` — a set with the off-like state `/no`
and the on-state `/Checked` — the source returns `/no`, the off-like
state itself, while the §4.2 order mandated by the claim (first
available state that is not the off-like state) yields `/Checked`.
The claim as stated is therefore false at this input. -/
theorem C1_resolve_order_counterexample :
    resolveCheckboxStr "yes" ["/no", "/Checked"] = "/no" ∧
    resolveSpecOrder "yes" ["/no", "/Checked"] = "/Checked" ∧
    ("/no" : String) ≠ "/Checked" ∧
    stateTailLower "/no" ∈ ["off", "no", "false", "unchecked", "0"] :=
  ⟨by decide, by decide, by decide, by decide⟩

/-- C1 (amended): checkbox-state resolution performs, per branch, a
single ordered scan accepting an exact or case-insensitive match
(`matchState`), not an exact-first pass; a truthy intent with no match
for `/Yes` takes the first state other than exactly `/Off`
(synthesizing `/Yes` if none); a falsy intent tries `/Off`, then
`/`-prefixed intent, then the first off-like state (synthesizing
`/Off`); any other non-empty name synthesizes `/name`.  The claim's
three concrete examples hold. -/
theorem C1_resolve_amended :
    (∀ (v : String) (states : List String),
      startsWithStr (pyStrip v) "/" = true ∧ strLen (pyStrip v) > 1 →
      resolveCheckboxStr v states = (matchState states (pyStrip v)).getD (pyStrip v)) ∧
    (∀ (v : String) (states : List String),
      ¬(startsWithStr (pyStrip v) "/" = true ∧ strLen (pyStrip v) > 1) →
      lowerStr (pyStrip v) ∈ truthyIntents →
      resolveCheckboxStr v states =
        (match matchState states "/Yes" with
         | some m => m
         | Option.none => (firstOnState states).getD "/Yes")) ∧
    (∀ (v : String) (states : List String),
      ¬(startsWithStr (pyStrip v) "/" = true ∧ strLen (pyStrip v) > 1) →
      lowerStr (pyStrip v) ∉ truthyIntents →
      lowerStr (pyStrip v) ∈ falsyIntents →
      resolveCheckboxStr v states =
        (match matchState states "/Off" with
         | some m => m
         | Option.none =>
           match matchState states ("/" ++ pyStrip v) with
           | some m => m
           | Option.none => (firstOffState states).getD "/Off")) ∧
    (∀ (v : String) (states : List String),
      ¬(startsWithStr (pyStrip v) "/" = true ∧ strLen (pyStrip v) > 1) →
      lowerStr (pyStrip v) ∉ truthyIntents →
      lowerStr (pyStrip v) ∉ falsyIntents →
      pyStrip v ≠ "" →
      resolveCheckboxStr v states =
        (matchState states ("/" ++ pyStrip v)).getD ("/" ++ pyStrip v)) ∧
    resolveCheckboxStr "yes" ["/Off", "/Yes"] = "/Yes" ∧
    resolveCheckboxStr "/Off" ["/Off", "/Yes"] = "/Off" ∧
    resolveCheckboxStr "Female" ["/Off", "/Male", "/Female"] = "/Female" := by
  refine ⟨?_, ?_, ?_, ?_, by rfl, by rfl, by rfl⟩
  · intro v states h
    simp [resolveCheckboxStr, h]
  · intro v states h1 h2
    simp [resolveCheckboxStr, h1, h2]
  · intro v states h1 h2 h3
    simp [resolveCheckboxStr, h1, h2, h3]
  · intro v states h1 h2 h3 h4
    simp [resolveCheckboxStr, h1, h2, h3, h4]

/-- Witness for C1 (amended): the slash branch resolves `"/Off"` to
the exact state and the synthesize branch resolves `"Female"` to
`/Female`, by applying the amended theorem at those inputs. -/
theorem C1_resolve_amended_witness :
    resolveCheckboxStr "/Off" ["/Off", "/Yes"] = "/Off" ∧
    resolveCheckboxStr "Female" ["/Off", "/Male", "/Female"] = "/Female" := by
  constructor
  · have h := C1_resolve_amended.1 "/Off" ["/Off", "/Yes"] (by decide)
    rw [h]
    decide
  · have h := C1_resolve_amended.2.2.2.1 "Female" ["/Off", "/Male", "/Female"]
      (by decide) (by decide) (by decide) (by decide)
    rw [h]
    decide

/-- The text pass touches only the value entry. -/
theorem applyTextUpd_title (tu : List (String × Val)) (a : WAnnot) :
    (applyTextUpd tu a).title = a.title ∧ (applyTextUpd tu a).states = a.states ∧
    (applyTextUpd tu a).ff = a.ff := by
  unfold applyTextUpd
  split
  case _ t heq =>
    split
    case _ s heq2 => exact ⟨rfl, rfl, rfl⟩
    case _ => exact ⟨rfl, rfl, rfl⟩
  case _ => exact ⟨rfl, rfl, rfl⟩

/-- The checkbox pass on a targeted annotation writes the resolved
state into both `/V` and `/AS`. -/
theorem applyCheckboxUpd_eq (cu : List (String × Val)) (a : WAnnot) (t : String) (v : Val)
    (ht : a.title = some t) (hv : lookupVal cu t = some v) :
    applyCheckboxUpd cu a =
      { a with vVal := resolveCheckbox v a.states, asVal := resolveCheckbox v a.states } := by
  simp [applyCheckboxUpd, ht, hv]

/-- The checkbox pass touches neither name, states nor flags. -/
theorem applyCheckboxUpd_parts (cu : List (String × Val)) (a : WAnnot) :
    (applyCheckboxUpd cu a).title = a.title ∧ (applyCheckboxUpd cu a).states = a.states ∧
    (applyCheckboxUpd cu a).ff = a.ff := by
  unfold applyCheckboxUpd
  split
  case _ t heq =>
    split
    case _ v heq2 => exact ⟨rfl, rfl, rfl⟩
    case _ => exact ⟨rfl, rfl, rfl⟩
  case _ => exact ⟨rfl, rfl, rfl⟩

/-- C3: for every checkbox/radio target with a resolved CheckState,
interactive fill writes the same resolved state name into both the
field's value entry (`/V`) and its current-appearance-state entry
(`/AS`); with `read_only=true` it additionally sets bit value 1 in the
widget's `/Ff` flag bitmask while keeping the field present (title,
states and the annotation itself survive). -/
theorem C3_interactive_value_as_agree (pages : List WPage) (payload : List (String × Val)) (ro : Bool)
    (i j : Nat) (pg : WPage) (hpg : pages[i]? = some pg) (a : WAnnot)
    (ha : pg.annots[j]? = some a) :
    (writeInteractive pages payload ro).length = pages.length ∧
    ∃ pg' a', (writeInteractive pages payload ro)[i]? = some pg' ∧
      pg'.annots[j]? = some a' ∧
      pg'.annots.length = pg.annots.length ∧
      a'.title = a.title ∧ a'.states = a.states ∧
      (∀ t v, a.title = some t → lookupVal (checkboxUpdates payload) t = some v →
        a'.vVal = resolveCheckbox v a.states ∧ a'.asVal = resolveCheckbox v a.states) ∧
      (ro = true → a'.ff = a.ff ||| 1 ∧ a'.ff.testBit 0 = true) := by
  refine ⟨by simp [writeInteractive], ?_⟩
  set tu := textUpdates payload with htu
  set cu := checkboxUpdates payload with hcu
  set b := applyCheckboxUpd cu (applyTextUpd tu a) with hb
  set a' := if ro then { b with ff := b.ff ||| 1 } else b with ha'
  have hbt : b.title = a.title := by
    rw [hb, (applyCheckboxUpd_parts cu _).1, (applyTextUpd_title tu a).1]
  have hbs : b.states = a.states := by
    rw [hb, (applyCheckboxUpd_parts cu _).2.1, (applyTextUpd_title tu a).2.1]
  have hbf : b.ff = a.ff := by
    rw [hb, (applyCheckboxUpd_parts cu _).2.2, (applyTextUpd_title tu a).2.2]
  set pg' : WPage := ⟨if ro then
      ((pg.annots.map (applyTextUpd tu)).map (applyCheckboxUpd cu)).map
        (fun x => { x with ff := x.ff ||| 1 })
    else (pg.annots.map (applyTextUpd tu)).map (applyCheckboxUpd cu)⟩ with hpg'
  refine ⟨pg', a', ?_, ?_, ?_, ?_, ?_, ?_, ?_⟩
  · -- output page at i
    cases ro <;>
      simp [writeInteractive, ← htu, ← hcu, List.getElem?_map, hpg, hpg', List.map_map]
  · -- output annot at j
    cases ro <;>
      simp [hpg', ha', hb, List.getElem?_map, ha, List.map_map]
  · cases ro <;> simp [hpg']
  · -- title preserved
    rcases ro with _ | _ <;> simp [ha', hbt]
  · rcases ro with _ | _ <;> simp [ha', hbs]
  · intro t v ht hv
    have h2 : (applyTextUpd tu a).title = some t := by
      rw [(applyTextUpd_title tu a).1, ht]
    have h3 : b = { applyTextUpd tu a with
        vVal := resolveCheckbox v (applyTextUpd tu a).states,
        asVal := resolveCheckbox v (applyTextUpd tu a).states } := by
      rw [hb, applyCheckboxUpd_eq cu _ t v h2 hv]
    have hsts : (applyTextUpd tu a).states = a.states := (applyTextUpd_title tu a).2.1
    constructor <;> rcases ro with _ | _ <;> simp [ha', h3, hsts]
  · intro hro
    subst hro
    constructor
    · simp [ha', hbf]
    · simp [ha', Nat.testBit_or]

/-- Witness for C3: the §8 end-to-end case — one checkbox field
`Agree` with states `/Off`,`/Yes`, row value `"/Yes"`, read-only fill —
yields a widget whose value and appearance state are both `/Yes` with
flag bit 1 set. -/
theorem C3_interactive_value_as_agree_witness :
    (((writeInteractive
          [⟨[⟨some "Agree", ["/Off", "/Yes"], Option.none, Option.none, 0⟩]⟩]
          [("Agree", .str "/Yes")] true)[0]?.bind
        (fun pg => pg.annots[0]?)).map
      (fun a => (a.title, a.vVal, a.asVal, a.ff.testBit 0))) =
      some (some "Agree", some "/Yes", some "/Yes", true) := by
  obtain ⟨-, pg', a', hpg, ha, hlen, htitle, hstates, hcv, hro⟩ :=
    C3_interactive_value_as_agree [⟨[⟨some "Agree", ["/Off", "/Yes"], Option.none, Option.none, 0⟩]⟩]
      [("Agree", .str "/Yes")] true 0 0
      ⟨[⟨some "Agree", ["/Off", "/Yes"], Option.none, Option.none, 0⟩]⟩ rfl
      ⟨some "Agree", ["/Off", "/Yes"], Option.none, Option.none, 0⟩ rfl
  have hv := hcv "Agree" (.str "/Yes") rfl rfl
  have hres : resolveCheckbox (.str "/Yes") ["/Off", "/Yes"] = some "/Yes" := by decide
  simp only [hpg, Option.some_bind, ha, Option.map_some]
  have hgoal : a'.title = some "Agree" ∧ a'.vVal = some "/Yes" ∧ a'.asVal = some "/Yes" ∧
      a'.ff.testBit 0 = true := by
    refine ⟨by rw [htitle], ?_, ?_, (hro rfl).2⟩
    · rw [hv.1]; exact hres
    · rw [hv.2]; exact hres
  rw [show Option.map (fun a : WAnnot => (a.title, a.vVal, a.asVal, a.ff.testBit 0)) (some a') =
        some (a'.title, a'.vVal, a'.asVal, a'.ff.testBit 0) from rfl,
      hgoal.1, hgoal.2.1, hgoal.2.2.1, hgoal.2.2.2]

/-- C10: the flattened output has no interactive form machinery at
all: the post-pass removes the `/AcroForm` root entry and pops the
entire `/Annots` array from every page, so every annotation — links
and other non-form annotations included, not just the widgets deleted
by the burn-in pass — is absent from the result, while the burned-in
page content of the widget pass is preserved. -/
theorem C10_flatten_strips_all_annotations :
    ∀ (doc : FDoc) (payload : List (String × Val)),
      (writeFlattened doc payload).hasAcroForm = false ∧
      (writeFlattened doc payload).pages.length = doc.pages.length ∧
      ((writeFlattened doc payload).pages.map (fun p => p.annots)) =
        List.replicate doc.pages.length [] ∧
      ((writeFlattened doc payload).pages.map (fun p => p.drawn)) =
        doc.pages.map (fun p => (flattenPage payload p).drawn) := by
  intro doc payload
  refine ⟨rfl, by simp [writeFlattened, stripAcroformDoc], ?_, ?_⟩
  · simp [writeFlattened, stripAcroformDoc, List.map_map]
    have : ((fun (p : FPage) => p.annots) ∘ (fun (p : FPage) => ({ annots := [], drawn := p.drawn } : FPage)) ∘ flattenPage payload) = fun _ => ([] : List FAnnot) := by
      funext p
      rfl
    rw [this, List.map_const']
  · simp [writeFlattened, stripAcroformDoc, List.map_map]

/-- The row loop, when the cancellation flag is first observed at the
check after the row at 1-based offset `k` from `i`, stops there with
exactly the completed outputs so far. -/
theorem fillLoop_cancel_spec (fill : Row → String) (flag : Nat → Bool) :
    ∀ (rows : List Row) (k i : Nat) (acc : List String),
      k < rows.length → flag (i + k) = true → (∀ m, m < k → flag (i + m) = false) →
      fillLoop fill flag rows i acc = (acc ++ (rows.take (k + 1)).map fill, true) := by
  intro rows
  induction rows with
  | nil => intro k i acc hk; exact absurd hk (by simp)
  | cons r rest ih =>
    intro k i acc hk hkt hprev
    cases k with
    | zero =>
      simp only [Nat.add_zero] at hkt
      simp [fillLoop, hkt]
    | succ k' =>
      have h0 : flag i = false := by
        have := hprev 0 (Nat.succ_pos k')
        simpa using this
      have hrec := ih k' (i + 1) (acc ++ [fill r])
        (by simpa using Nat.lt_of_succ_lt_succ hk)
        (by rw [show i + 1 + k' = i + (k' + 1) by omega]; exact hkt)
        (fun m hm => by
          rw [show i + 1 + m = i + (m + 1) by omega]
          exact hprev (m + 1) (by omega))
      simp only [fillLoop, h0]
      rw [if_neg (by simp)]
      rw [hrec]
      simp [List.take_succ_cons]

/-- C9: when cancellation is requested during a multi-row job, the
worker stops between rows — at the first between-rows check that
observes the flag — never mid-row: the outputs are exactly the
completed outputs of the first `k` rows (a prefix of the full run,
so files of prior rows are preserved and no partial row output
exists), and the job ends in the `cancelled` outcome, distinct from
`failed` (and from `completed`). -/
theorem C9_cancel_between_rows (fill : Row → String) (rows : List Row) (flag : Nat → Bool) (k : Nat)
    (hk1 : 1 ≤ k) (hk2 : k ≤ rows.length) (hkt : flag k = true)
    (hprev : ∀ m, 1 ≤ m → m < k → flag m = false) :
    runWorker fill rows flag = (.cancelled, (rows.take k).map fill) ∧
    (rows.take k).map fill = (rows.map fill).take k ∧
    (∀ msg, (Outcome.cancelled : Outcome) ≠ .failed msg) ∧
    (∀ outs, (Outcome.cancelled : Outcome) ≠ .completed outs) := by
  have hloop := fillLoop_cancel_spec fill flag rows (k - 1) 1 []
    (by omega)
    (by rw [show 1 + (k - 1) = k by omega]; exact hkt)
    (fun m hm => by
      have := hprev (1 + m) (by omega) (by omega)
      simpa using this)
  rw [show k - 1 + 1 = k by omega] at hloop
  refine ⟨?_, ?_, ?_, ?_⟩
  · simp [runWorker, hloop]
  · simp [List.map_take]
  · intro msg h; cases h
  · intro outs h; cases h

/-- Witness for C9: three rows, cancellation observed at the check
after row 2 — the job cancels with exactly the first two outputs. -/
theorem C9_cancel_between_rows_witness :
    runWorker (fun r => pyStr ((rowGet r "a").getD .none'))
        [[("a", .int 1)], [("a", .int 2)], [("a", .int 3)]]
        (fun i => decide (2 ≤ i)) =
      (.cancelled, ["1", "2"]) := by
  have h := C9_cancel_between_rows (fun r => pyStr ((rowGet r "a").getD .none'))
    [[("a", .int 1)], [("a", .int 2)], [("a", .int 3)]]
    (fun i => decide (2 ≤ i)) 2
    (by omega) (by simp) (by decide)
    (fun m h1 h2 => by
      have hm : m = 1 := by omega
      subst hm
      decide)
  rw [h.1]
  rfl

/-- Decimal value of a digit character; `10` marks a non-digit. -/
def digitVal (c : Char) : Nat :=
  if c = '0' then 0 else if c = '1' then 1 else if c = '2' then 2 else if c = '3' then 3
  else if c = '4' then 4 else if c = '5' then 5 else if c = '6' then 6 else if c = '7' then 7
  else if c = '8' then 8 else if c = '9' then 9 else 10

/-- Decode a digit string back to its value. -/
def digitsVal (cs : List Char) : Nat :=
  cs.foldl (fun a c => 10 * a + digitVal c) 0

theorem digitVal_digitChar (d : Nat) (hd : d < 10) : digitVal (digitChar d) = d := by
  interval_cases d <;> decide

theorem digitChar_ne_underscore (d : Nat) (hd : d < 10) : digitChar d ≠ '_' := by
  interval_cases d <;> decide

theorem decChars_digits (n : Nat) : ∀ c ∈ decChars n, ∃ d, d < 10 ∧ c = digitChar d := by
  induction n using Nat.strong_induction_on with
  | _ n ih =>
    intro c hc
    by_cases h : n < 10
    · rw [decChars, dif_pos h] at hc
      simp at hc
      exact ⟨n, h, hc⟩
    · rw [decChars, dif_neg h] at hc
      rcases List.mem_append.mp hc with h1 | h2
      · exact ih (n / 10) (Nat.div_lt_self (by omega) (by norm_num)) c h1
      · simp at h2
        exact ⟨n % 10, Nat.mod_lt _ (by norm_num), h2⟩

theorem foldl_digits_append (a : Nat) (cs : List Char) (c : Char) :
    (cs ++ [c]).foldl (fun a c => 10 * a + digitVal c) a =
      10 * cs.foldl (fun a c => 10 * a + digitVal c) a + digitVal c := by
  rw [List.foldl_append]
  rfl

theorem digitsVal_decChars (n : Nat) : digitsVal (decChars n) = n := by
  induction n using Nat.strong_induction_on with
  | _ n ih =>
    by_cases h : n < 10
    · rw [decChars, dif_pos h]
      simp [digitsVal, digitVal_digitChar n h]
    · rw [decChars, dif_neg h]
      unfold digitsVal
      rw [foldl_digits_append]
      rw [show (decChars (n / 10)).foldl (fun a c => 10 * a + digitVal c) 0 = digitsVal (decChars (n / 10)) from rfl]
      rw [ih (n / 10) (Nat.div_lt_self (by omega) (by norm_num))]
      rw [digitVal_digitChar (n % 10) (Nat.mod_lt _ (by norm_num))]
      omega

theorem foldl_digits_replicate_zero (k : Nat) :
    (List.replicate k '0').foldl (fun a c => 10 * a + digitVal c) 0 = 0 := by
  induction k with
  | zero => rfl
  | succ k ih => simpa [List.replicate_succ, digitVal] using ih

theorem digitsVal_pad4 (n : Nat) : digitsVal (pad4Chars n) = n := by
  unfold pad4Chars digitsVal
  rw [List.foldl_append, foldl_digits_replicate_zero]
  exact digitsVal_decChars n

theorem pad4Chars_inj (m n : Nat) (h : pad4Chars m = pad4Chars n) : m = n := by
  have := digitsVal_pad4 m
  rw [h, digitsVal_pad4] at this
  omega

theorem pad4Chars_no_underscore (n : Nat) : ∀ c ∈ pad4Chars n, c ≠ '_' := by
  intro c hc
  rcases List.mem_append.mp hc with h1 | h2
  · have := List.eq_of_mem_replicate h1
    subst this
    decide
  · obtain ⟨d, hd, hcd⟩ := decChars_digits n c h2
    subst hcd
    exact digitChar_ne_underscore d hd

/-- The characters after the separator in a renamed field name. -/
def restChars (i : Nat) : List Char :=
  'e' :: 'n' :: 't' :: 'r' :: 'y' :: pad4Chars i

theorem rename_data (nm : String) (i : Nat) :
    (nm ++ "_" ++ entrySuffix i).data = nm.data ++ '_' :: restChars i := by
  simp [entrySuffix, restChars]

theorem restChars_no_underscore (i : Nat) : ∀ c ∈ restChars i, c ≠ '_' := by
  intro c hc
  simp only [restChars, List.mem_cons] at hc
  rcases hc with rfl | rfl | rfl | rfl | rfl | h
  · decide
  · decide
  · decide
  · decide
  · decide
  · exact pad4Chars_no_underscore i c h

theorem indexOf_append_not_mem (c : Char) :
    ∀ (xs ys : List Char), c ∉ xs → List.indexOf c (xs ++ c :: ys) = xs.length := by
  intro xs
  induction xs with
  | nil => intro ys _; simp [List.indexOf_cons_self]
  | cons x xs ih =>
    intro ys hx
    have hxc : x ≠ c := by
      intro hh; exact hx (by simp [hh])
    rw [List.cons_append, List.indexOf_cons_ne _ hxc, ih ys (fun hm => hx (by simp [hm]))]
    rfl

theorem renamed_inj {a b : String} {i j : Nat}
    (h : a ++ "_" ++ entrySuffix i = b ++ "_" ++ entrySuffix j) : a = b ∧ i = j := by
  have hd : a.data ++ '_' :: restChars i = b.data ++ '_' :: restChars j := by
    have := congrArg String.data h
    rwa [rename_data, rename_data] at this
  have hrev : (restChars i).reverse ++ '_' :: a.data.reverse =
      (restChars j).reverse ++ '_' :: b.data.reverse := by
    have := congrArg List.reverse hd
    simpa [List.reverse_append] using this
  have hmem1 : '_' ∉ (restChars i).reverse := by
    intro hm
    exact restChars_no_underscore i '_' (List.mem_reverse.mp hm) rfl
  have hmem2 : '_' ∉ (restChars j).reverse := by
    intro hm
    exact restChars_no_underscore j '_' (List.mem_reverse.mp hm) rfl
  have hidx1 := indexOf_append_not_mem '_' (restChars i).reverse a.data.reverse hmem1
  have hidx2 := indexOf_append_not_mem '_' (restChars j).reverse b.data.reverse hmem2
  rw [hrev] at hidx1
  have hlen : (restChars i).length = (restChars j).length := by
    rw [hidx2] at hidx1
    simpa using hidx1.symm
  obtain ⟨hab, hrest⟩ := List.append_inj' hd (by simpa using hlen)
  have hpad : pad4Chars i = pad4Chars j := by
    simp only [restChars, List.cons.injEq] at hrest
    exact hrest.2.2.2.2.2.2
  exact ⟨String.ext hab, pad4Chars_inj i j hpad⟩

theorem collectKidsList_append : ∀ xs ys : List FieldNode,
    collectKidsList (xs ++ ys) = collectKidsList xs ++ collectKidsList ys := by
  intro xs ys
  induction xs with
  | nil => rfl
  | cons k ks ih => simp [collectKidsList, ih, List.append_assoc]

mutual

theorem collect_renameNode (sfx : String) : ∀ t : FieldNode,
    collectNode (renameNode sfx t) = (collectNode t).map (fun nm => nm ++ "_" ++ sfx)
  | .node title kids => by
    cases title with
    | none =>
      simp [renameNode, collectNode, collect_renameKids sfx kids]
    | some nm =>
      simp [renameNode, collectNode, collect_renameKids sfx kids]

theorem collect_renameKids (sfx : String) : ∀ ks : List FieldNode,
    collectKidsList (renameKidsList sfx ks) = (collectKidsList ks).map (fun nm => nm ++ "_" ++ sfx)
  | [] => by simp [renameKidsList, collectKidsList]
  | k :: ks => by
    simp [renameKidsList, collectKidsList, collect_renameNode sfx k, collect_renameKids sfx ks]

end

theorem combined_collect (fields : List FieldNode) : ∀ L : List Nat,
    collectKidsList (L.flatMap (fun i => renameKidsList (entrySuffix i) fields)) =
      L.flatMap (fun i => (collectKidsList fields).map (fun nm => nm ++ "_" ++ entrySuffix i)) := by
  intro L
  induction L with
  | nil => rfl
  | cons i L ih =>
    simp only [List.flatMap_cons, collectKidsList_append, ih, collect_renameKids]

theorem suffixFn_injective (i : Nat) :
    Function.Injective (fun nm => nm ++ "_" ++ entrySuffix i) := by
  intro a b hab
  exact (renamed_inj hab).1

theorem combined_nodup (names : List String) (hnd : names.Nodup) : ∀ L : List Nat, L.Nodup →
    (L.flatMap (fun i => names.map (fun nm => nm ++ "_" ++ entrySuffix i))).Nodup := by
  intro L
  induction L with
  | nil => intro _; simp
  | cons i L ih =>
    intro hL
    rw [List.flatMap_cons, List.nodup_append]
    refine ⟨hnd.map (suffixFn_injective i), ih (List.Nodup.of_cons hL), ?_⟩
    intro x hx1 hx2
    obtain ⟨nm1, hnm1, rfl⟩ := List.mem_map.mp hx1
    obtain ⟨j, hj, hx2'⟩ := List.mem_flatMap.mp hx2
    obtain ⟨nm2, hnm2, heq⟩ := List.mem_map.mp hx2'
    have hij := (renamed_inj heq.symm).2
    subst hij
    exact (List.nodup_cons.mp hL).1 hj

theorem flatMap_const_length {α β : Type} (xs : List β) : ∀ L : List α,
    (L.flatMap (fun _ => xs)).length = L.length * xs.length := by
  intro L
  induction L with
  | nil => simp
  | cons a L ih => simp [List.flatMap_cons, ih, Nat.succ_mul, Nat.add_comm]

theorem flatMap_map_length (names : List String) : ∀ L : List Nat,
    (L.flatMap (fun i => names.map (fun nm => nm ++ "_" ++ entrySuffix i))).length =
      L.length * names.length := by
  intro L
  induction L with
  | nil => simp
  | cons i L ih => simp [List.flatMap_cons, ih, Nat.succ_mul, Nat.add_comm]

/-- C4: combining N rows yields exactly N times the template's page
count in pages and N times the per-template field count in fields; no
two fields anywhere in the merged document share one name (given the
template's own field names are duplicate-free, as a well-formed
AcroForm requires); and every form field of the i-th scratch document
is renamed by appending the row-unique suffix to its original name,
recursively across `/Kids`. -/
theorem C4_combine_counts_and_unique_names (tmpl : CombTemplate) (n : Nat)
    (hnd : (collectKidsList tmpl.fields).Nodup) :
    (combineRows tmpl n).pages.length = n * tmpl.pages.length ∧
    (collectKidsList (combineRows tmpl n).fields).length =
      n * (collectKidsList tmpl.fields).length ∧
    (collectKidsList (combineRows tmpl n).fields).Nodup ∧
    (∀ (sfx : String) (ks : List FieldNode),
      collectKidsList (renameKidsList sfx ks) =
        (collectKidsList ks).map (fun nm => nm ++ "_" ++ sfx)) := by
  refine ⟨?_, ?_, ?_, fun sfx ks => collect_renameKids sfx ks⟩
  · simp only [combineRows]
    rw [flatMap_const_length tmpl.pages (List.range' 1 n), List.length_range']
  · simp only [combineRows]
    rw [combined_collect tmpl.fields (List.range' 1 n),
      flatMap_map_length (collectKidsList tmpl.fields) (List.range' 1 n), List.length_range']
  · simp only [combineRows]
    rw [combined_collect tmpl.fields (List.range' 1 n)]
    exact combined_nodup (collectKidsList tmpl.fields) hnd (List.range' 1 n) (List.nodup_range' 1 n)

/-- Witness for C4: a two-page template with three fields (one nested
under `/Kids`) combined over three rows gives six pages, nine fields
and no duplicate names. -/
theorem C4_combine_counts_and_unique_names_witness :
    (combineRows ⟨[10, 20], [.node (some "Agree") [],
        .node (some "Name") [.node (some "Kid") []]]⟩ 3).pages.length = 6 ∧
    (collectKidsList (combineRows ⟨[10, 20], [.node (some "Agree") [],
        .node (some "Name") [.node (some "Kid") []]]⟩ 3).fields).length = 9 ∧
    (collectKidsList (combineRows ⟨[10, 20], [.node (some "Agree") [],
        .node (some "Name") [.node (some "Kid") []]]⟩ 3).fields).Nodup := by
  have h := C4_combine_counts_and_unique_names ⟨[10, 20], [.node (some "Agree") [],
      .node (some "Name") [.node (some "Kid") []]]⟩ 3 (by decide)
  exact ⟨by rw [h.1]; rfl, by rw [h.2.1]; rfl, h.2.2.1⟩

/-- `d[k] = v` then `d.get(k)` returns `v`. -/
theorem idxGet_idxSet_self (m : RuleIndex) (k : String) (v : MappingRule) :
    idxGet (idxSet m k v) k = some v := by
  unfold idxSet idxGet
  by_cases h : (m.find? (fun kv => kv.1 = k)).isSome
  · rw [if_pos h]
    rw [List.find?_map]
    obtain ⟨kv0, hkv0⟩ := Option.isSome_iff_exists.mp h
    have hcomp : (fun kv : String × MappingRule => decide (kv.1 = k)) ∘
        (fun kv => if kv.1 = k then (k, v) else kv) =
        fun kv : String × MappingRule => decide (kv.1 = k) := by
      funext kv
      by_cases hk : kv.1 = k <;> simp [hk]
    rw [hcomp, hkv0]
    have := List.find?_some hkv0
    simp at this
    simp [this]
  · rw [if_neg h]
    rw [List.find?_append]
    rw [Option.not_isSome_iff_eq_none.mp h]
    simp

/-- `d[k] = v` leaves other keys unchanged. -/
theorem idxGet_idxSet_ne (m : RuleIndex) (k k' : String) (v : MappingRule) (h : k' ≠ k) :
    idxGet (idxSet m k v) k' = idxGet m k' := by
  unfold idxSet idxGet
  by_cases hs : (m.find? (fun kv => kv.1 = k)).isSome
  · rw [if_pos hs]
    rw [List.find?_map]
    have hcomp : (fun kv : String × MappingRule => decide (kv.1 = k')) ∘
        (fun kv => if kv.1 = k then (k, v) else kv) =
        fun kv : String × MappingRule => decide (kv.1 = k') := by
      funext kv
      by_cases hk : kv.1 = k
      · simp [hk]
      · simp [hk]
    rw [hcomp]
    cases hf : m.find? (fun kv => decide (kv.1 = k')) with
    | none => rfl
    | some kv0 =>
      have := List.find?_some hf
      simp at this
      have : kv0.1 ≠ k := by rw [this]; exact h
      simp [Option.map_some, this]
  · rw [if_neg hs]
    rw [List.find?_append]
    cases hf : m.find? (fun kv => decide (kv.1 = k')) with
    | none => simp [Ne.symm h]
    | some kv0 => simp

/-- Storing clones under a target list leaves other keys unchanged. -/
theorem foldl_idxSet_other (mk : String → MappingRule) (k : String) :
    ∀ (targets : List String) (m : RuleIndex), k ∉ targets →
      idxGet (targets.foldl (fun acc t => idxSet acc t (mk t)) m) k = idxGet m k := by
  intro targets
  induction targets with
  | nil => intro m _; rfl
  | cons t ts ih =>
    intro m hk
    rw [List.foldl_cons]
    rw [ih (idxSet m t (mk t)) (fun h => hk (List.mem_cons_of_mem t h))]
    exact idxGet_idxSet_ne m t k (mk t) (fun h => hk (h ▸ List.mem_cons_self t ts))

/-- Storing clones under a target list installs each one. -/
theorem foldl_idxSet_mem (mk : String → MappingRule) (k : String) :
    ∀ (targets : List String) (m : RuleIndex), k ∈ targets →
      idxGet (targets.foldl (fun acc t => idxSet acc t (mk t)) m) k = some (mk k) := by
  intro targets
  induction targets with
  | nil => intro m hk; exact absurd hk (by simp)
  | cons t ts ih =>
    intro m hk
    rw [List.foldl_cons]
    by_cases hmem : k ∈ ts
    · exact ih (idxSet m t (mk t)) hmem
    · have hkt : k = t := by
        rcases List.mem_cons.mp hk with h | h
        · exact h
        · exact absurd h hmem
      subst hkt
      rw [foldl_idxSet_other mk k ts (idxSet m k (mk k)) hmem]
      exact idxGet_idxSet_self m k (mk k)

/-- A key all of whose entries the stale filter rejects is absent. -/
theorem idxGet_filter_of_removed (m : RuleIndex) (p : String × MappingRule → Bool) (k : String)
    (h : ∀ kv ∈ m, kv.1 = k → p kv = false) : idxGet (m.filter p) k = Option.none := by
  unfold idxGet
  rw [show (m.filter p).find? (fun kv => kv.1 = k) = Option.none from ?_]
  · rfl
  · rw [List.find?_eq_none]
    intro kv hkv
    have hm := List.mem_filter.mp hkv
    intro hk
    have := h kv hm.1 (by simpa using hk)
    rw [hm.2] at this
    cases this

/-- A key all of whose entries the stale filter keeps looks up as
before. -/
theorem idxGet_filter_of_kept (p : String × MappingRule → Bool) (k : String) :
    ∀ m : RuleIndex, (∀ kv ∈ m, kv.1 = k → p kv = true) →
      idxGet (m.filter p) k = idxGet m k := by
  intro m
  induction m with
  | nil => intro _; rfl
  | cons kv rest ih =>
    intro h
    by_cases hp : p kv = true
    · rw [List.filter_cons_of_pos hp]
      by_cases hk : kv.1 = k
      · unfold idxGet
        rw [List.find?_cons_of_pos _ (by simpa using hk), List.find?_cons_of_pos _ (by simpa using hk)]
      · unfold idxGet
        rw [List.find?_cons_of_neg _ (by simpa using hk), List.find?_cons_of_neg _ (by simpa using hk)]
        exact ih (fun kv' h1 h2 => h kv' (List.mem_cons_of_mem kv h1) h2)
    · have hk : kv.1 ≠ k := by
        intro hk
        exact hp (h kv (List.mem_cons_self kv rest) hk)
      rw [List.filter_cons_of_neg (by simpa using hp)]
      unfold idxGet
      rw [List.find?_cons_of_neg _ (by simpa using hk)]
      exact ih (fun kv' h1 h2 => h kv' (List.mem_cons_of_mem kv h1) h2)

/-- The entry-point field is always among the normalized targets. -/
theorem fieldName_mem_normTargets (fieldName : String) (rule : MappingRule) :
    fieldName ∈ normTargets fieldName rule := by
  unfold normTargets
  dsimp only
  by_cases h1 : fieldName ∈ dedupKeep ((ensureTargets fieldName rule.targets).filter (fun t => t ≠ ""))
  · rw [if_pos h1]
    split
    · exact List.mem_singleton_self fieldName
    · exact h1
  · rw [if_neg h1]
    split
    · exact List.mem_singleton_self fieldName
    · exact List.mem_cons_self fieldName _

/-- C8 (amended): assigning a rule under a field installs a clone of
it under every normalized target; re-assigning with a reduced target
list removes, from targets no longer referenced, exactly the entries
whose target set equals the previous assignment's target set; and
every entry stored under a key outside the new target list whose
target set differs from the previous assignment's (or whose key the
previous assignment never referenced) is left unchanged.  Keys inside
the new target list are overwritten even when they held an unrelated
rule — the uncorrected claim fails there. -/
theorem C8_assign_amended (rules : RuleIndex) (fieldName : String) (rule : MappingRule)
    (rt : RuleType) (hrt : coerceType rule.ruleType = some rt)
    (prevTargets : List String)
    (hprev : prevTargets = (match idxGet rules fieldName with
      | some p => p.targets
      | Option.none => [])) :
    ∃ m', assign rules fieldName rule = .ok m' ∧
      (∀ t ∈ normTargets fieldName rule,
        idxGet m' t =
          some (mkRule t rt (normTargets fieldName rule) (assignOpts rt rule.options))) ∧
      (∀ t, t ∈ prevTargets → t ∉ normTargets fieldName rule →
        (∀ kv ∈ rules, kv.1 = t → kv.2.targets.toFinset = prevTargets.toFinset) →
        idxGet m' t = Option.none) ∧
      (∀ k, k ∉ normTargets fieldName rule → k ∉ prevTargets →
        idxGet m' k = idxGet rules k) ∧
      (∀ k, k ∉ normTargets fieldName rule →
        (∀ kv ∈ rules, kv.1 = k → kv.2.targets.toFinset ≠ prevTargets.toFinset) →
        idxGet m' k = idxGet rules k) := by
  have hassign : assign rules fieldName rule =
      .ok ((normTargets fieldName rule).foldl
        (fun acc t => idxSet acc t (mkRule t rt (normTargets fieldName rule) (assignOpts rt rule.options)))
        (rules.filter (fun kv =>
          ¬(kv.1 ∈ prevTargets.filter (fun t => t ∉ normTargets fieldName rule) ∧
            kv.1 ≠ fieldName ∧ kv.2.targets.toFinset = prevTargets.toFinset)))) := by
    unfold assign
    rw [hrt]
    dsimp only
    rw [← hprev]
  refine ⟨_, hassign, ?_, ?_, ?_, ?_⟩
  · intro t ht
    exact foldl_idxSet_mem _ t (normTargets fieldName rule) _ ht
  · intro t ht hnt hall
    rw [foldl_idxSet_other _ t (normTargets fieldName rule) _ hnt]
    apply idxGet_filter_of_removed
    intro kv hkv hk
    have htne : t ≠ fieldName := by
      intro hh
      exact hnt (hh ▸ fieldName_mem_normTargets fieldName rule)
    simp only [decide_eq_false_iff_not, Decidable.not_not, not_not]
    subst hk
    constructor
    · exact List.mem_filter.mpr ⟨ht, by simpa using hnt⟩
    · exact ⟨htne, hall kv hkv rfl⟩
  · intro k hknew hkprev
    rw [foldl_idxSet_other _ k (normTargets fieldName rule) _ hknew]
    apply idxGet_filter_of_kept
    intro kv hkv hk
    simp only [decide_eq_true_iff]
    intro hcon
    have : k ∈ prevTargets := (List.mem_filter.mp (hk ▸ hcon.1)).1
    exact hkprev this
  · intro k hknew hall
    rw [foldl_idxSet_other _ k (normTargets fieldName rule) _ hknew]
    apply idxGet_filter_of_kept
    intro kv hkv hk
    simp only [decide_eq_true_iff]
    intro hcon
    exact hall kv hkv hk hcon.2.2

/-- C8 counterexample: with an unrelated Value rule stored under key
`A` (its own assignment, target set `{A}`), assigning a Choice rule
under `B` with targets `[B, A]` overwrites the entry at `A` — a rule
belonging to a different assignment is not left unchanged, so the
claim as stated is false. -/
theorem C8_assign_counterexample :
    (((assign [] "A" (mkRule "A" .value ["A"] { column := some "X" })).toOption.bind
        (fun m1 => (assign m1 "B" (mkRule "B" .choice ["B", "A"] { source := some "S" })).toOption)).bind
      (fun m2 => (idxGet m2 "A").map (fun r => r.ruleType))) = some (.known .choice) ∧
    ((assign [] "A" (mkRule "A" .value ["A"] { column := some "X" })).toOption.bind
      (fun m1 => (idxGet m1 "A").map (fun r => r.ruleType))) = some (.known .value) ∧
    (RuleTypeField.known .choice) ≠ (.known .value) :=
  ⟨rfl, rfl, by decide⟩

/-- Witness for C8 (amended): the spec's own scenario — re-assigning
the shared rule of `{A, B}` under `A` with the reduced target list
`[A]` removes the stale entry at `B` and leaves the unrelated rule at
`C` untouched. -/
theorem C8_assign_amended_witness :
    ((assign
        [("C", mkRule "C" .value ["C"] { column := some "Z" }),
         ("A", mkRule "A" .value ["A", "B"] { column := some "X" }),
         ("B", mkRule "B" .value ["A", "B"] { column := some "X" })]
        "A" (mkRule "A" .value ["A"] { column := some "X" })).toOption.bind
      (fun m' => (idxGet m' "A").map (fun r => r.targets))) = some ["A"] ∧
    ((assign
        [("C", mkRule "C" .value ["C"] { column := some "Z" }),
         ("A", mkRule "A" .value ["A", "B"] { column := some "X" }),
         ("B", mkRule "B" .value ["A", "B"] { column := some "X" })]
        "A" (mkRule "A" .value ["A"] { column := some "X" })).toOption.bind
      (fun m' => (idxGet m' "B").map (fun r => r.targets))) = Option.none ∧
    ((assign
        [("C", mkRule "C" .value ["C"] { column := some "Z" }),
         ("A", mkRule "A" .value ["A", "B"] { column := some "X" }),
         ("B", mkRule "B" .value ["A", "B"] { column := some "X" })]
        "A" (mkRule "A" .value ["A"] { column := some "X" })).toOption.bind
      (fun m' => (idxGet m' "C").map (fun r => r.targets))) = some ["C"] := by
  obtain ⟨m', hok, hi, hii, hiiia, hiiib⟩ :=
    C8_assign_amended
      [("C", mkRule "C" .value ["C"] { column := some "Z" }),
       ("A", mkRule "A" .value ["A", "B"] { column := some "X" }),
       ("B", mkRule "B" .value ["A", "B"] { column := some "X" })]
      "A" (mkRule "A" .value ["A"] { column := some "X" }) .value rfl ["A", "B"] rfl
  have h1 := hi "A" (by decide)
  have hall : ∀ kv ∈
      [("C", mkRule "C" .value ["C"] { column := some "Z" }),
       ("A", mkRule "A" .value ["A", "B"] { column := some "X" }),
       ("B", mkRule "B" .value ["A", "B"] { column := some "X" })],
      kv.1 = "B" → kv.2.targets.toFinset = (["A", "B"] : List String).toFinset := by
    intro kv hkv hk
    rcases List.mem_cons.mp hkv with h | hkv2
    · rw [h] at hk
      exact absurd hk (by decide)
    rcases List.mem_cons.mp hkv2 with h | hkv3
    · rw [h] at hk
      exact absurd hk (by decide)
    rcases List.mem_cons.mp hkv3 with h | hkv4
    · rw [h]
      decide
    · exact absurd hkv4 (by simp)
  have h2 := hii "B" (by decide) (by decide) hall
  have h3 := hiiia "C" (by decide) (by decide)
  rw [hok]
  refine ⟨?_, ?_, ?_⟩
  · rw [show (Except.ok m' : Except String RuleIndex).toOption = some m' from rfl]
    rw [Option.some_bind, h1]
    rfl
  · rw [show (Except.ok m' : Except String RuleIndex).toOption = some m' from rfl]
    rw [Option.some_bind, h2]
    rfl
  · rw [show (Except.ok m' : Except String RuleIndex).toOption = some m' from rfl]
    rw [Option.some_bind, h3]
    rfl

end PdfBulkFiller
